import Mathlib

/-!
Verification of `mcp_proxy/mcp_server.py`, a protocol-translating reverse
proxy for the Model Context Protocol.

The development shallowly embeds the pure data manipulation of the source
file (Python dictionaries as association lists with in-place overwrite,
request-scope path normalisation, route construction, orchestrator setup)
and models the effectful request handlers as explicit event traces.
-/

/-! ## Python dictionary model

Python `dict`s are modelled as association lists with insertion order.
`pget` is `d.get(k)`, `pset` is `d[k] = v` (overwrites in place, appends
at the end for a fresh key), `dict_update` is `d.update(u)` (iterates the
items of `u` in insertion order, setting each into `d`).
-/

def pget {α : Type} : List (String × α) → String → Option α
  | [], _ => none
  | (k', v) :: d, k => if k' = k then some v else pget d k

def pset {α : Type} : List (String × α) → String → α → List (String × α)
  | [], k, v => [(k, v)]
  | (k', v') :: d, k, v => if k' = k then (k', v) :: d else (k', v') :: pset d k v

def dict_update {α : Type} (base upd : List (String × α)) : List (String × α) :=
  upd.foldl (fun acc p => pset acc p.1 p.2) base

/-- First-some choice on options (`x if x is not None else y`). -/
def orElseO {α : Type} (a b : Option α) : Option α :=
  match a with
  | some v => some v
  | none => b

/-! ## Backend configuration (from `mcp_server.py`)

`StdioServerParameters` carries command, argv, optional env dict and cwd.
`MCPServerSettings` mirrors the settings dataclass of the source.
-/

structure StdioServerParameters where
  command : String
  args : List String
  env : Option (List (String × String)) := none
  cwd : Option String := none
deriving DecidableEq

structure MCPServerSettings where
  bind_host : String
  port : Nat
  stateless : Bool := false
  allow_origins : Option (List String) := none
  log_level : String := "INFO"
deriving DecidableEq

/-! ## Header-to-environment extraction (`_extract_header_env_vars`)

The incoming request's headers are modelled as a lookup function
(`request.headers.get`).  The source iterates `header_mapping.items()`
and records `env_vars[env_name] = value` whenever the header value is
truthy (present and non-empty).
-/

def extract_header_env_vars (headers : String → Option String)
    (header_mapping : List (String × String)) : List (String × String) :=
  header_mapping.foldl
    (fun env_vars p =>
      match headers p.1 with
      | some value => if value ≠ "" then pset env_vars p.2 value else env_vars
      | none => env_vars)
    []

/-- The environment given to the per-request child in `handle_dynamic_sse` /
`handle_dynamic_mcp`: `merged_env = (params.env or {}).copy()` followed by
`merged_env.update(header_env_vars)`. -/
def dynamic_spawn_env (params : StdioServerParameters)
    (headers : String → Option String)
    (header_mapping : List (String × String)) : List (String × String) :=
  dict_update (params.env.getD []) (extract_header_env_vars headers header_mapping)

/-! ## Byte-string / path primitives

Raw paths are byte strings in the source; they are modelled as `String`
(one `Char` per byte).  `rstripSlash` is Python `s.rstrip("/")`,
`strEndsWith s t` is `s.endswith(t)`, `splitFirst c l` is
`s.split(c, 1)` restricted to the first occurrence.
-/

def isPrefixL : List Char → List Char → Bool
  | [], _ => true
  | _ :: _, [] => false
  | a :: as, b :: bs => a == b && isPrefixL as bs

def strEndsWith (s t : String) : Bool :=
  isPrefixL t.data.reverse s.data.reverse

def rstripSlashL (l : List Char) : List Char :=
  (l.reverse.dropWhile (fun c => c == '/')).reverse

def rstripSlash (s : String) : String :=
  ⟨rstripSlashL s.data⟩

def splitFirst (c : Char) : List Char → Option (List Char × List Char)
  | [] => none
  | x :: xs =>
    if x = c then some ([], xs)
    else
      match splitFirst c xs with
      | some pq => some (x :: pq.1, pq.2)
      | none => none

/-- The path part of a raw path: everything before the first `?`
(the whole string when there is no query). -/
def rawPathPart (rp : String) : String :=
  match splitFirst '?' rp.data with
  | some pq => ⟨pq.1⟩
  | none => rp

/-- The query suffix of a raw path: the first `?` and everything after it
(empty when there is no query). -/
def rawQuerySuffix (rp : String) : String :=
  match splitFirst '?' rp.data with
  | some pq => ⟨'?' :: pq.2⟩
  | none => ""

/-- Raw-path rewriting shared by both streamable-HTTP handlers:
`path_part.rstrip(b"/") + b"/?" + query_part` when a query is present,
else `raw_path.rstrip(b"/") + b"/"`. -/
def normalize_raw_path (rp : String) : String :=
  match splitFirst '?' rp.data with
  | some pq => ⟨rstripSlashL pq.1 ++ '/' :: '?' :: pq.2⟩
  | none => ⟨rstripSlashL rp.data ++ ['/']⟩

/-! ## ASGI scope and in-band path normalisation

An ASGI scope is a dict; the handlers look at `"type"`, `"path"` and
`"raw_path"` and copy every other entry untouched, so the model keeps
those three fields plus an opaque remainder. -/

structure Scope where
  typ : String
  path : Option String
  raw_path : Option String
  other : List (String × String)
deriving DecidableEq

/-- Scope rewriting of `handle_streamable_http_instance` (static backends):
triggers only when `path and path.rstrip("/") == "/mcp" and not
path.endswith("/")`. -/
def normalize_scope_static (scope : Scope) : Scope :=
  if scope.typ = "http" then
    let path := scope.path.getD ""
    if path ≠ "" ∧ rstripSlash path = "/mcp" ∧ strEndsWith path "/" = false then
      { scope with
          path := some (path ++ "/"),
          raw_path :=
            match scope.raw_path with
            | some rp => if rp ≠ "" then some (normalize_raw_path rp) else some rp
            | none => none }
    else scope
  else scope

/-- Scope rewriting of `handle_dynamic_mcp` (dynamic backends): triggers when
`path and path.rstrip("/").endswith("/mcp") and not path.endswith("/")`. -/
def normalize_scope_dynamic (scope : Scope) : Scope :=
  if scope.typ = "http" then
    let path := scope.path.getD ""
    if path ≠ "" ∧ strEndsWith (rstripSlash path) "/mcp" = true ∧ strEndsWith path "/" = false then
      { scope with
          path := some (path ++ "/"),
          raw_path :=
            match scope.raw_path with
            | some rp => if rp ≠ "" then some (normalize_raw_path rp) else some rp
            | none => none }
    else scope
  else scope

/-- What a streamable-HTTP handler does with the request: either delegate the
(possibly rewritten) scope to the session manager, or send an HTTP response
itself.  The source never takes the second branch. -/
inductive HandlerCall where
  | delegate (scopePassed : Scope)
  | respond (status : Nat) (location : Option String)
deriving DecidableEq

def handle_streamable_http_instance_call (scope : Scope) : HandlerCall :=
  HandlerCall.delegate (normalize_scope_static scope)

def handle_dynamic_mcp_call (scope : Scope) : HandlerCall :=
  HandlerCall.delegate (normalize_scope_dynamic scope)

def isRedirect : HandlerCall → Bool
  | HandlerCall.delegate _ => false
  | HandlerCall.respond status _ => 300 ≤ status && status < 400

/-! ## Request handlers as event traces

The effectful parts of the four transport handlers are modelled as event
traces.  `scoped_events` models an `async with` block: `enter` events,
then the body (possibly truncated when the request aborts — client
disconnect, cancellation or error at any suspension point inside the
body), then the `cleanup` events, which run on every exit path. -/

inductive Ev where
  | touchActivity
  | spawnChild (backend : String)
  | terminateChild (backend : String)
  | runSession
  | enterSse
  | exitSse
  | httpResponse
deriving DecidableEq

def countL {α : Type} [DecidableEq α] (a : α) : List α → Nat
  | [] => 0
  | x :: t => (if x = a then 1 else 0) + countL a t

def scoped_events (enter cleanup body : List Ev) (abortAt : Option Nat) : List Ev :=
  enter ++ (match abortAt with | none => body | some n => body.take n) ++ cleanup

/-- `handle_sse_instance` (static backend): enter `connect_sse`, touch the
global activity timestamp, run the proxy adapter, leave the scope, reply. -/
def handle_sse_instance_events : List Ev :=
  [Ev.enterSse, Ev.touchActivity, Ev.runSession, Ev.exitSse, Ev.httpResponse]

/-- `handle_streamable_http_instance` (static backend): touch the timestamp,
then delegate to the session manager. -/
def handle_streamable_http_instance_events : List Ev :=
  [Ev.touchActivity, Ev.runSession]

/-- `handle_dynamic_sse`: touch, then inside an `AsyncExitStack` spawn the
child and run the SSE flow; the stack terminates the child on every exit
path; the empty response is sent after the stack unwinds. -/
def handle_dynamic_sse_events (b : String) (abortAt : Option Nat) : List Ev :=
  [Ev.touchActivity]
    ++ scoped_events [Ev.spawnChild b] [Ev.terminateChild b]
        [Ev.enterSse, Ev.runSession, Ev.exitSse] abortAt
    ++ (match abortAt with | none => [Ev.httpResponse] | some _ => [])

/-- `handle_dynamic_mcp`: touch, then inside an `AsyncExitStack` spawn the
child and delegate to a per-request session manager; the stack terminates
the child on every exit path. -/
def handle_dynamic_mcp_events (b : String) (abortAt : Option Nat) : List Ev :=
  [Ev.touchActivity]
    ++ scoped_events [Ev.spawnChild b] [Ev.terminateChild b]
        [Ev.runSession] abortAt

/-- `true` when no session-manager/adapter invocation happens before the
first update of the activity timestamp. -/
def touchPrecedesSession : List Ev → Bool
  | [] => true
  | Ev.runSession :: _ => false
  | Ev.touchActivity :: _ => true
  | _ :: t => touchPrecedesSession t

/-- Global status cell.  Timestamps are drawn from a strictly increasing
clock; `api_last_activity` records the clock value at the latest touch. -/
structure GStatus where
  clock : Nat
  api_last_activity : Nat
deriving DecidableEq

def execEv (s : GStatus) : Ev → GStatus
  | Ev.touchActivity => { clock := s.clock + 1, api_last_activity := s.clock }
  | Ev.spawnChild _ => { s with clock := s.clock + 1 }
  | Ev.terminateChild _ => { s with clock := s.clock + 1 }
  | Ev.runSession => { s with clock := s.clock + 1 }
  | Ev.enterSse => { s with clock := s.clock + 1 }
  | Ev.exitSse => { s with clock := s.clock + 1 }
  | Ev.httpResponse => { s with clock := s.clock + 1 }

def execTrace (s : GStatus) (t : List Ev) : GStatus :=
  t.foldl execEv s

/-! ## Route construction and the orchestrator (`run_mcp_server`)

Starlette routes are modelled structurally.  `HTTP_METHODS` is the
source's module-level constant. -/

def HTTP_METHODS : List String :=
  ["DELETE", "GET", "HEAD", "OPTIONS", "PATCH", "POST", "PUT", "TRACE"]

/-- A backend-level route: either a `Route(path, methods=…)` or a
`Mount(path, app=…)` on a single ASGI endpoint. -/
inductive LeafRoute where
  | route (path : String) (methods : Option (List String)) (endpoint : String)
  | mountApp (path : String) (endpoint : String)
deriving DecidableEq

/-- A top-level entry of the application's route table: a leaf route at
root, or a `Mount(path, routes=…)` wrapping a named backend's routes. -/
inductive RouteEntry where
  | leaf (r : LeafRoute)
  | mountRoutes (path : String) (inner : List LeafRoute)
deriving DecidableEq

/-- The kind/path/methods shape of a backend route, forgetting which
endpoint function serves it. -/
def leafShape : LeafRoute → String × String × Option (List String)
  | LeafRoute.route p m _ => ("Route", p, m)
  | LeafRoute.mountApp p _ => ("Mount", p, none)

/-- Routes built by `create_single_instance_routes` (static backends), in
source order. -/
def create_single_instance_routes_model : List LeafRoute :=
  [ LeafRoute.route "/mcp" (some HTTP_METHODS) "handle_streamable_http_instance",
    LeafRoute.mountApp "/mcp" "handle_streamable_http_instance",
    LeafRoute.route "/sse" none "handle_sse_instance",
    LeafRoute.mountApp "/messages/" "handle_post_message" ]

/-- Routes built by `create_dynamic_server_routes` (dynamic backends), in
source order. -/
def create_dynamic_server_routes_model : List LeafRoute :=
  [ LeafRoute.route "/mcp" (some HTTP_METHODS) "handle_dynamic_mcp",
    LeafRoute.mountApp "/mcp" "handle_dynamic_mcp",
    LeafRoute.route "/sse" none "handle_dynamic_sse" ]

/-- `name in header_mappings and header_mappings[name]` — a named server is
dynamic exactly when it has a non-empty header mapping. -/
def isDynamicServer (header_mappings : List (String × List (String × String)))
    (name : String) : Bool :=
  match pget header_mappings name with
  | some m => decide (m ≠ [])
  | none => false

/-- Observable outcome of the orchestrator's setup: the Starlette route
tree, the `server_instances` status dict, which backends spawned a child
at startup, and the router's `redirect_slashes` flag. -/
structure AppModel where
  routes : List RouteEntry
  serverInstances : List (String × String)
  startupSpawns : List String
  redirectSlashes : Bool
deriving DecidableEq

/-- One iteration of the named-server loop in `run_mcp_server`: the
accumulator carries (routes, server_instances, startup spawns). -/
def setup_named_server (header_mappings : List (String × List (String × String)))
    (acc : List RouteEntry × List (String × String) × List String)
    (p : String × StdioServerParameters) :
    List RouteEntry × List (String × String) × List String :=
  if isDynamicServer header_mappings p.1 then
    (acc.1 ++ [RouteEntry.mountRoutes ("/servers/" ++ p.1) create_dynamic_server_routes_model],
     pset acc.2.1 p.1 "dynamic",
     acc.2.2)
  else
    (acc.1 ++ [RouteEntry.mountRoutes ("/servers/" ++ p.1) create_single_instance_routes_model],
     pset acc.2.1 p.1 "static",
     acc.2.2 ++ [p.1])

/-- The `/status` route installed first by the orchestrator. -/
def status_route : RouteEntry :=
  RouteEntry.leaf (LeafRoute.route "/status" none "handle_status")

/-- `run_mcp_server` before the named-server loop: `/status` installed,
default backend (when present) spawned with its static routes at root and
status `"configured"`. -/
def run_base (default_server_params : Option StdioServerParameters) :
    List RouteEntry × List (String × String) × List String :=
  match default_server_params with
  | some _ =>
      ([status_route] ++ create_single_instance_routes_model.map RouteEntry.leaf,
       [("default", "configured")],
       ["default"])
  | none => ([status_route], [], [])

/-- `run_mcp_server`: install `/status`, set up the default backend (spawn
child, static routes at root, status `"configured"`), iterate the named
backends (dynamic or static), and bail out with `none` — a logged
configuration error, the HTTP server is never started — when no backend is
configured.  On success the router has `redirect_slashes = False`. -/
def run_mcp_server (settings : MCPServerSettings)
    (default_server_params : Option StdioServerParameters)
    (named_server_params : List (String × StdioServerParameters))
    (header_mappings : List (String × List (String × String))) : Option AppModel :=
  let base := run_base default_server_params
  let result := named_server_params.foldl (setup_named_server header_mappings) base
  if default_server_params = none ∧ named_server_params = [] then none
  else
    some { routes := result.1,
           serverInstances := result.2.1,
           startupSpawns := result.2.2,
           redirectSlashes := false }

/-- Names of the named servers set up statically (in loop order). -/
def staticNames (header_mappings : List (String × List (String × String)))
    (l : List (String × StdioServerParameters)) : List String :=
  (l.filter (fun p => isDynamicServer header_mappings p.1 = false)).map Prod.fst

/-! ## Proof-support observation functions -/

/-- Generic shape of one dict-building iteration: `f` decides whether the
item contributes a key/value pair; if so it is `pset` into the
accumulator. -/
def dstep {α : Type} (f : String × α → Option (String × α))
    (acc : List (String × α)) (p : String × α) : List (String × α) :=
  match f p with
  | some kv => pset acc kv.1 kv.2
  | none => acc

/-- The contribution of one `header_mapping` item in
`_extract_header_env_vars`. -/
def hdrF (headers : String → Option String) (p : String × String) :
    Option (String × String) :=
  match headers p.1 with
  | some value => if value ≠ "" then some (p.2, value) else none
  | none => none

/-! ## Concrete fixtures (used by witnesses and counterexamples) -/

def paramsW : StdioServerParameters :=
  { command := "echo-mcp", args := ["--fast"] }

def paramsE : StdioServerParameters :=
  { command := "brave-mcp", args := ["--stdio"], env := some [("A", "1"), ("B", "2")] }

def settingsW : MCPServerSettings :=
  { bind_host := "127.0.0.1", port := 8080 }

def headersW : String → Option String := fun h =>
  if h = "X-Key" then some "k1" else if h = "X-Emp" then some "" else none

def mappingW : List (String × String) :=
  [("X-Key", "A"), ("X-Emp", "C"), ("X-Na", "D")]

def hmW : List (String × List (String × String)) :=
  [("b", [("X-Key", "API_KEY")])]

def c1_scope : Scope :=
  { typ := "http", path := some "/servers/x/mcp",
    raw_path := some "/servers/x/mcp?q=1", other := [] }

def scopeW : Scope :=
  { typ := "http", path := some "/servers/x/mcp",
    raw_path := some "/servers/x/mcp?a=1", other := [("method", "POST")] }

def scopeW2 : Scope :=
  { typ := "http", path := some "/mcp", raw_path := some "/mcp?x=1", other := [] }

def scopeW3 : Scope :=
  { typ := "websocket", path := some "/mcp", raw_path := none, other := [] }

def appW7 : AppModel :=
  { routes := status_route :: create_single_instance_routes_model.map RouteEntry.leaf,
    serverInstances := [("default", "configured")],
    startupSpawns := ["default"],
    redirectSlashes := false }

def appW5 : AppModel :=
  { routes := [status_route,
               RouteEntry.mountRoutes "/servers/a" create_single_instance_routes_model],
    serverInstances := [("a", "static")],
    startupSpawns := ["a"],
    redirectSlashes := false }

def appW8 : AppModel :=
  { routes := [status_route,
               RouteEntry.mountRoutes "/servers/a" create_single_instance_routes_model,
               RouteEntry.mountRoutes "/servers/b" create_dynamic_server_routes_model],
    serverInstances := [("a", "static"), ("b", "dynamic")],
    startupSpawns := ["a"],
    redirectSlashes := false }

/-! ## Lemmas: the dictionary model -/

theorem pget_pset_self {α : Type} (d : List (String × α)) (k : String) (v : α) :
    pget (pset d k v) k = some v := by
  induction d with
  | nil => simp [pset, pget]
  | cons p d ih =>
    obtain ⟨a, b⟩ := p
    by_cases h : a = k
    · subst h; simp [pset, pget]
    · simp [pset, pget, h, ih]

theorem pget_pset_other {α : Type} (d : List (String × α)) (k k' : String) (v : α)
    (h : k ≠ k') : pget (pset d k v) k' = pget d k' := by
  induction d with
  | nil => simp [pset, pget, h]
  | cons p d ih =>
    obtain ⟨a, b⟩ := p
    by_cases ha : a = k
    · subst ha; simp [pset, pget, h]
    · simp [pset, pget, ha, ih]

theorem extract_eq_foldl_dstep (headers : String → Option String)
    (mapping : List (String × String)) :
    extract_header_env_vars headers mapping
      = mapping.foldl (dstep (hdrF headers)) [] := by
  unfold extract_header_env_vars
  apply List.foldl_ext
  intro acc p _
  cases h : headers p.1 with
  | none => simp [dstep, hdrF, h]
  | some value =>
    by_cases hv : value = ""
    · simp [dstep, hdrF, h, hv]
    · simp [dstep, hdrF, h, hv]

theorem dict_update_eq_foldl_dstep {α : Type} (base upd : List (String × α)) :
    dict_update base upd = upd.foldl (dstep (fun p => some p)) base := by
  unfold dict_update
  apply List.foldl_ext
  intro acc p _
  simp [dstep]

theorem pget_foldl_dstep {α : Type} (f : String × α → Option (String × α))
    (l : List (String × α)) :
    ∀ (acc : List (String × α)) (k : String),
      pget (l.foldl (dstep f) acc) k
        = orElseO (pget (l.foldl (dstep f) []) k) (pget acc k) := by
  induction l with
  | nil => intro acc k; simp [pget, orElseO]
  | cons p l ih =>
    intro acc k
    rw [List.foldl_cons, List.foldl_cons, ih (dstep f acc p) k, ih (dstep f [] p) k]
    cases hx : pget (l.foldl (dstep f) []) k with
    | some w => simp [orElseO]
    | none =>
      simp only [orElseO]
      cases hf : f p with
      | none => simp [dstep, hf, pget]
      | some kv =>
        by_cases hk : kv.1 = k
        · simp [dstep, hf, hk, pget_pset_self, pset, pget]
        · simp [dstep, hf, pget_pset_other _ _ _ _ hk, pset, pget, hk]

theorem orElseO_none_right {α : Type} (a : Option α) : orElseO a none = a := by
  cases a <;> rfl

theorem pget_eq_none_of_not_mem {α : Type} (d : List (String × α)) (k : String)
    (h : k ∉ d.map Prod.fst) : pget d k = none := by
  induction d with
  | nil => rfl
  | cons p d ih =>
    obtain ⟨a, b⟩ := p
    simp only [List.map_cons, List.mem_cons] at h
    push_neg at h
    have ha : ¬a = k := fun hc => h.1 hc.symm
    simp [pget, ha, ih h.2]

theorem pget_foldl_dstep_some {α : Type} (f : String × α → Option (String × α)) :
    ∀ (l : List (String × α)) (k : String) (v : α),
      pget (l.foldl (dstep f) []) k = some v → ∃ p ∈ l, f p = some (k, v) := by
  intro l
  induction l with
  | nil => intro k v h; simp [pget] at h
  | cons p l ih =>
    intro k v h
    rw [List.foldl_cons, pget_foldl_dstep f l (dstep f [] p) k] at h
    cases hx : pget (l.foldl (dstep f) []) k with
    | some w =>
      rw [hx] at h
      simp only [orElseO] at h
      obtain ⟨q, hq, hfq⟩ := ih k v (hx.trans h)
      exact ⟨q, List.mem_cons_of_mem _ hq, hfq⟩
    | none =>
      rw [hx] at h
      simp only [orElseO] at h
      cases hf : f p with
      | none => simp [dstep, hf, pget] at h
      | some kv =>
        obtain ⟨k1, v1⟩ := kv
        simp only [dstep, hf, pset, pget] at h
        by_cases hk : k1 = k
        · subst hk
          simp at h
          subst h
          exact ⟨p, List.mem_cons_self p l, hf⟩
        · simp [hk] at h

theorem pget_foldl_dstep_of_mem {α : Type} (f : String × α → Option (String × α)) :
    ∀ (l : List (String × α)) (p : String × α) (k : String) (v : α),
      p ∈ l → f p = some (k, v) → pget (l.foldl (dstep f) []) k ≠ none := by
  intro l
  induction l with
  | nil => intro p k v hp; simp at hp
  | cons q l ih =>
    intro p k v hp hf
    rw [List.foldl_cons, pget_foldl_dstep f l (dstep f [] q) k]
    rcases List.mem_cons.mp hp with rfl | hmem
    · cases hx : pget (l.foldl (dstep f) []) k with
      | some w => simp [orElseO]
      | none =>
        simp only [orElseO]
        simp only [dstep, hf]
        rw [pget_pset_self]
        simp
    · have := ih p k v hmem hf
      cases hx : pget (l.foldl (dstep f) []) k with
      | some w => simp [orElseO]
      | none => exact absurd hx this

theorem mem_map_fst_pset {α : Type} (d : List (String × α)) (k : String) (v : α)
    (x : String) :
    x ∈ (pset d k v).map Prod.fst ↔ x ∈ d.map Prod.fst ∨ x = k := by
  induction d with
  | nil => simp [pset]
  | cons p d ih =>
    obtain ⟨a, b⟩ := p
    by_cases ha : a = k
    · subst ha
      have hps : pset ((a, b) :: d) a v = (a, v) :: d := by simp [pset]
      rw [hps]
      simp only [List.map_cons, List.mem_cons]
      tauto
    · simp only [pset, if_neg ha, List.map_cons, List.mem_cons, ih]
      tauto

theorem nodup_map_fst_pset {α : Type} (d : List (String × α)) (k : String) (v : α)
    (h : (d.map Prod.fst).Nodup) : ((pset d k v).map Prod.fst).Nodup := by
  induction d with
  | nil => simp [pset]
  | cons p d ih =>
    obtain ⟨a, b⟩ := p
    simp only [List.map_cons, List.nodup_cons] at h
    by_cases ha : a = k
    · subst ha
      simpa [pset, List.nodup_cons] using h
    · simp only [pset, if_neg ha, List.map_cons, List.nodup_cons]
      refine ⟨fun hc => ?_, ih h.2⟩
      rcases (mem_map_fst_pset d k v a).mp hc with hm | hm
      · exact h.1 hm
      · exact ha hm

theorem nodup_foldl_dstep {α : Type} (f : String × α → Option (String × α)) :
    ∀ (l acc : List (String × α)), (acc.map Prod.fst).Nodup →
      ((l.foldl (dstep f) acc).map Prod.fst).Nodup := by
  intro l
  induction l with
  | nil => intro acc h; simpa using h
  | cons p l ih =>
    intro acc h
    rw [List.foldl_cons]
    apply ih
    cases hf : f p with
    | none => rw [dstep, hf]; exact h
    | some kv => rw [dstep, hf]; exact nodup_map_fst_pset acc kv.1 kv.2 h

theorem pget_dict_update_nil {α : Type} :
    ∀ (u : List (String × α)), (u.map Prod.fst).Nodup →
      ∀ k, pget (dict_update [] u) k = pget u k := by
  intro u
  induction u with
  | nil => intro _ k; rfl
  | cons p u ih =>
    intro h k
    simp only [List.map_cons, List.nodup_cons] at h
    rw [dict_update_eq_foldl_dstep, List.foldl_cons,
        pget_foldl_dstep (fun p => some p) u (dstep (fun p => some p) [] p) k,
        ← dict_update_eq_foldl_dstep, ih h.2 k]
    have hstep : dstep (fun p => some p) ([] : List (String × α)) p = [(p.1, p.2)] := rfl
    rw [hstep]
    obtain ⟨a, b⟩ := p
    by_cases ha : a = k
    · subst ha
      have : pget u a = none :=
        pget_eq_none_of_not_mem u a (by simpa using h.1)
      simp [this, pget, orElseO]
    · simp [pget, ha, orElseO_none_right]

/-! ## Claim C3: merged environment for dynamic requests -/

/-- Claim C3: for every dynamic request, the environment passed to the
spawned child equals the backend's base environment overwritten by the
header-derived map: header-derived values win on key collisions, and
headers that are absent or have an empty value contribute no environment
variable. -/
theorem dynamic_env_merge (params : StdioServerParameters)
    (headers : String → Option String) (mapping : List (String × String))
    (k : String) :
    pget (dynamic_spawn_env params headers mapping) k
        = orElseO (pget (extract_header_env_vars headers mapping) k)
            (pget (params.env.getD []) k)
    ∧ (∀ v, pget (extract_header_env_vars headers mapping) k = some v →
        ∃ h, (h, k) ∈ mapping ∧ headers h = some v ∧ v ≠ "")
    ∧ ((∀ h, (h, k) ∈ mapping → headers h = none ∨ headers h = some "") →
        pget (dynamic_spawn_env params headers mapping) k
          = pget (params.env.getD []) k) := by
  have hnodup : ((extract_header_env_vars headers mapping).map Prod.fst).Nodup := by
    rw [extract_eq_foldl_dstep]
    exact nodup_foldl_dstep _ mapping [] (by simp)
  have hmain : pget (dynamic_spawn_env params headers mapping) k
      = orElseO (pget (extract_header_env_vars headers mapping) k)
          (pget (params.env.getD []) k) := by
    unfold dynamic_spawn_env
    rw [dict_update_eq_foldl_dstep,
        pget_foldl_dstep (fun p => some p) (extract_header_env_vars headers mapping)
          (params.env.getD []) k,
        ← dict_update_eq_foldl_dstep, pget_dict_update_nil _ hnodup k]
  have hsome : ∀ v, pget (extract_header_env_vars headers mapping) k = some v →
      ∃ h, (h, k) ∈ mapping ∧ headers h = some v ∧ v ≠ "" := by
    intro v hv
    rw [extract_eq_foldl_dstep] at hv
    obtain ⟨p, hp, hfp⟩ := pget_foldl_dstep_some (hdrF headers) mapping k v hv
    unfold hdrF at hfp
    cases hh : headers p.1 with
    | none => rw [hh] at hfp; cases hfp
    | some value =>
      rw [hh] at hfp
      by_cases hv' : value = ""
      · simp [hv'] at hfp
      · simp only [ne_eq, hv', not_false_eq_true, if_true, Option.some.injEq,
          Prod.mk.injEq] at hfp
        obtain ⟨h1, h2⟩ := hfp
        refine ⟨p.1, ?_, ?_, ?_⟩
        · rw [← h1]; exact hp
        · rw [hh, h2]
        · rw [← h2]; exact hv'
  refine ⟨hmain, hsome, ?_⟩
  intro hall
  have hnone : pget (extract_header_env_vars headers mapping) k = none := by
    cases hx : pget (extract_header_env_vars headers mapping) k with
    | none => rfl
    | some v =>
      obtain ⟨h, hmem, hh, hv⟩ := hsome v hx
      rcases hall h hmem with h0 | h0
      · rw [h0] at hh; cases hh
      · rw [h0] at hh
        injection hh with he
        exact absurd he.symm hv
  rw [hmain, hnone]
  rfl

/-- Witness for C3 at a concrete request: header `X-Key: k1` overrides the
base value of `A`; the env var `D`, whose only mapped header is absent,
stays at its base (absent) value. -/
theorem dynamic_env_merge_witness :
    pget (dynamic_spawn_env paramsE headersW mappingW) "A"
        = orElseO (pget (extract_header_env_vars headersW mappingW) "A")
            (pget (paramsE.env.getD []) "A")
    ∧ pget (dynamic_spawn_env paramsE headersW mappingW) "D"
        = pget (paramsE.env.getD []) "D" := by
  refine ⟨(dynamic_env_merge paramsE headersW mappingW "A").1, ?_⟩
  refine (dynamic_env_merge paramsE headersW mappingW "D").2.2 ?_
  intro h hm
  simp only [mappingW, List.mem_cons, List.not_mem_nil, or_false] at hm
  rcases hm with h1 | h1 | h1
  · have h2 : ("D" : String) = "A" := congrArg Prod.snd h1
    exact absurd h2 (by decide)
  · have h2 : ("D" : String) = "C" := congrArg Prod.snd h1
    exact absurd h2 (by decide)
  · have he : h = "X-Na" := congrArg Prod.fst h1
    subst he
    left
    decide

/-! ## Lemmas: byte strings and path normalisation -/

theorem string_data_inj (s t : String) (h : s.data = t.data) : s = t :=
  congrArg String.mk h

theorem string_data_append (s t : String) : (s ++ t).data = s.data ++ t.data :=
  rfl

theorem mem_of_mem_dropWhile {α : Type} (p : α → Bool) (l : List α) (a : α)
    (h : a ∈ l.dropWhile p) : a ∈ l := by
  induction l with
  | nil => simp [List.dropWhile] at h
  | cons x t ih =>
    by_cases hp : p x
    · rw [List.dropWhile_cons_of_pos hp] at h
      exact List.mem_cons_of_mem x (ih h)
    · rw [List.dropWhile_cons_of_neg hp] at h
      exact h

theorem not_mem_rstripSlashL (c : Char) (l : List Char) (h : c ∉ l) :
    c ∉ rstripSlashL l := by
  intro hc
  unfold rstripSlashL at hc
  rw [List.mem_reverse] at hc
  exact h (List.mem_reverse.mp (mem_of_mem_dropWhile _ _ _ hc))

theorem dropWhile_slash_eq_self (l : List Char)
    (h : isPrefixL ['/'] l = false) :
    l.dropWhile (fun c => c == '/') = l := by
  cases l with
  | nil => rfl
  | cons c t =>
    have hc : c ≠ '/' := by
      intro he
      subst he
      simp [isPrefixL] at h
    rw [List.dropWhile_cons_of_neg (by simp [hc])]

theorem rstripSlash_eq_self (p : String) (h : strEndsWith p "/" = false) :
    rstripSlash p = p := by
  have h' : isPrefixL ['/'] p.data.reverse = false := h
  apply string_data_inj
  show rstripSlashL p.data = p.data
  rw [rstripSlashL, dropWhile_slash_eq_self _ h', List.reverse_reverse]

theorem splitFirst_eq_none_iff (c : Char) :
    ∀ l : List Char, splitFirst c l = none ↔ c ∉ l := by
  intro l
  induction l with
  | nil => simp [splitFirst]
  | cons x xs ih =>
    by_cases hx : x = c
    · subst hx
      simp [splitFirst]
    · simp only [splitFirst, if_neg hx, List.mem_cons]
      cases hs : splitFirst c xs with
      | some pq =>
        simp only [hs] at ih
        constructor
        · intro h; cases h
        · intro h
          exact absurd (ih.symm.mp (fun hm => h (Or.inr hm))) (by simp)
      | none =>
        simp only [hs] at ih
        have hcx : c ∉ xs := ih.mp trivial
        have hcs : ¬c = x := fun he => hx he.symm
        simp [hs, hcs, hcx]

theorem splitFirst_append (c : Char) (l r : List Char) (h : c ∉ l) :
    splitFirst c (l ++ c :: r) = some (l, r) := by
  induction l with
  | nil => simp [splitFirst]
  | cons a t ih =>
    simp only [List.mem_cons] at h
    push_neg at h
    have ha : a ≠ c := fun he => h.1 he.symm
    rw [List.cons_append]
    simp only [splitFirst, if_neg ha, ih h.2]

theorem splitFirst_some (c : Char) :
    ∀ (l a b : List Char), splitFirst c l = some (a, b) →
      l = a ++ c :: b ∧ c ∉ a := by
  intro l
  induction l with
  | nil => intro a b h; cases h
  | cons x xs ih =>
    intro a b h
    by_cases hx : x = c
    · subst hx
      simp [splitFirst] at h
      obtain ⟨h1, h2⟩ := h
      subst h1
      subst h2
      simp
    · simp only [splitFirst, if_neg hx] at h
      cases hs : splitFirst c xs with
      | none => rw [hs] at h; cases h
      | some pq =>
        rw [hs] at h
        simp only [Option.some.injEq] at h
        obtain ⟨h1, h2⟩ : a = x :: pq.1 ∧ b = pq.2 := by
          constructor
          · exact (congrArg Prod.fst h).symm
          · exact (congrArg Prod.snd h).symm
        obtain ⟨hl, hm⟩ := ih pq.1 pq.2 (by rw [hs])
        subst h1
        subst h2
        constructor
        · rw [List.cons_append, ← hl]
        · simp only [List.mem_cons]
          push_neg
          exact ⟨fun he => hx he.symm, hm⟩

theorem normalize_raw_path_spec (rp : String) :
    normalize_raw_path rp
        = rstripSlash (rawPathPart rp) ++ "/" ++ rawQuerySuffix rp
    ∧ rawQuerySuffix (normalize_raw_path rp) = rawQuerySuffix rp := by
  cases hs : splitFirst '?' rp.data with
  | none =>
    have hnot : '?' ∉ rp.data := (splitFirst_eq_none_iff '?' rp.data).mp hs
    have hnot2 : '?' ∉ rstripSlashL rp.data ++ ['/'] := by
      intro hm
      rcases List.mem_append.mp hm with hm | hm
      · exact not_mem_rstripSlashL _ _ hnot hm
      · simp at hm
    constructor
    · unfold normalize_raw_path rawPathPart rawQuerySuffix
      rw [hs]
      apply string_data_inj
      simp [string_data_append, rstripSlash]
    · unfold normalize_raw_path
      rw [hs]
      unfold rawQuerySuffix
      rw [hs, (splitFirst_eq_none_iff '?' _).mpr hnot2]
  | some pq =>
    obtain ⟨hl, hm⟩ := splitFirst_some '?' rp.data pq.1 pq.2 (by rw [hs])
    have hm2 : '?' ∉ rstripSlashL pq.1 ++ ['/'] := by
      intro hmm
      rcases List.mem_append.mp hmm with hmm | hmm
      · exact not_mem_rstripSlashL _ _ hm hmm
      · simp at hmm
    have hsplit2 : splitFirst '?' (rstripSlashL pq.1 ++ '/' :: '?' :: pq.2)
        = some (rstripSlashL pq.1 ++ ['/'], pq.2) := by
      have := splitFirst_append '?' (rstripSlashL pq.1 ++ ['/']) pq.2 hm2
      simpa using this
    constructor
    · unfold normalize_raw_path rawPathPart rawQuerySuffix
      rw [hs]
      apply string_data_inj
      simp [string_data_append, rstripSlash]
    · unfold normalize_raw_path
      rw [hs]
      unfold rawQuerySuffix
      rw [hs]
      show (match splitFirst '?' (rstripSlashL pq.1 ++ '/' :: '?' :: pq.2) with
        | some pq => String.mk ('?' :: pq.2)
        | none => "") = String.mk ('?' :: pq.2)
      rw [hsplit2]

theorem normalize_scope_dynamic_pos (scope : Scope) (p : String)
    (hty : scope.typ = "http") (hp : scope.path = some p)
    (hcond : p ≠ "" ∧ strEndsWith (rstripSlash p) "/mcp" = true
      ∧ strEndsWith p "/" = false) :
    normalize_scope_dynamic scope =
      { scope with
          path := some (p ++ "/"),
          raw_path :=
            match scope.raw_path with
            | some rp => if rp ≠ "" then some (normalize_raw_path rp) else some rp
            | none => none } := by
  unfold normalize_scope_dynamic
  rw [if_pos hty, hp]
  simp only [Option.getD_some]
  rw [if_pos hcond]

theorem normalize_scope_static_pos (scope : Scope) (p : String)
    (hty : scope.typ = "http") (hp : scope.path = some p)
    (hcond : p ≠ "" ∧ rstripSlash p = "/mcp" ∧ strEndsWith p "/" = false) :
    normalize_scope_static scope =
      { scope with
          path := some (p ++ "/"),
          raw_path :=
            match scope.raw_path with
            | some rp => if rp ≠ "" then some (normalize_raw_path rp) else some rp
            | none => none } := by
  unfold normalize_scope_static
  rw [if_pos hty, hp]
  simp only [Option.getD_some]
  rw [if_pos hcond]

theorem normalize_scope_static_neg (scope : Scope)
    (h : scope.typ ≠ "http"
      ∨ ¬(scope.path.getD "" ≠ "" ∧ rstripSlash (scope.path.getD "") = "/mcp"
            ∧ strEndsWith (scope.path.getD "") "/" = false)) :
    normalize_scope_static scope = scope := by
  unfold normalize_scope_static
  rcases h with h | h
  · rw [if_neg h]
  · by_cases hty : scope.typ = "http"
    · rw [if_pos hty]
      simp only
      rw [if_neg h]
    · rw [if_neg hty]

theorem normalize_scope_dynamic_neg (scope : Scope)
    (h : scope.typ ≠ "http"
      ∨ ¬(scope.path.getD "" ≠ ""
            ∧ strEndsWith (rstripSlash (scope.path.getD "")) "/mcp" = true
            ∧ strEndsWith (scope.path.getD "") "/" = false)) :
    normalize_scope_dynamic scope = scope := by
  unfold normalize_scope_dynamic
  rcases h with h | h
  · rw [if_neg h]
  · by_cases hty : scope.typ = "http"
    · rw [if_pos hty]
      simp only
      rw [if_neg h]
    · rw [if_neg hty]

/-! ## Claim C1: trailing-slash path normalisation -/

/-- Claim C1 counterexample: on a mount-rooted path such as
`/servers/x/mcp` the **static** streamable-HTTP handler leaves the scope
unchanged — the session manager receives a path that does not end in `/` —
because its predicate is `path.rstrip("/") == "/mcp"` (exact equality),
not the `endswith` form used by the dynamic handler. -/
theorem static_handler_mount_rooted_cex :
    c1_scope.typ = "http"
    ∧ c1_scope.path = some "/servers/x/mcp"
    ∧ strEndsWith "/servers/x/mcp" "/mcp" = true
    ∧ strEndsWith "/servers/x/mcp" "/" = false
    ∧ normalize_scope_static c1_scope = c1_scope
    ∧ (normalize_scope_static c1_scope).path = some "/servers/x/mcp" := by
  decide

/-- Claim C1 (amended): for every HTTP request whose scope path ends in
`/mcp` (the exact path `/mcp` or a mount-rooted form like
`/servers/x/mcp`) and does not already end in `/`, the **dynamic**
Streamable-HTTP handler passes the session manager a scope whose path is
the original path with `/` appended and whose raw path is the original
raw path with the path part's trailing slashes stripped, a single `/`
appended, and the query string (everything after the first `?`) preserved
byte-for-byte; the **static** handler does the same but only when the
path is exactly `/mcp`; no HTTP redirect response is produced by this
normalisation. -/
theorem mcp_path_normalisation (scope : Scope) (p : String)
    (hty : scope.typ = "http") (hp : scope.path = some p) (hne : p ≠ "")
    (hnoslash : strEndsWith p "/" = false) :
    (strEndsWith p "/mcp" = true →
      (normalize_scope_dynamic scope).path = some (p ++ "/")
      ∧ ∀ rp, scope.raw_path = some rp → rp ≠ "" →
          (normalize_scope_dynamic scope).raw_path
            = some (rstripSlash (rawPathPart rp) ++ "/" ++ rawQuerySuffix rp)
          ∧ rawQuerySuffix (normalize_raw_path rp) = rawQuerySuffix rp)
    ∧ (p = "/mcp" →
      (normalize_scope_static scope).path = some (p ++ "/")
      ∧ ∀ rp, scope.raw_path = some rp → rp ≠ "" →
          (normalize_scope_static scope).raw_path
            = some (rstripSlash (rawPathPart rp) ++ "/" ++ rawQuerySuffix rp))
    ∧ isRedirect (handle_dynamic_mcp_call scope) = false
    ∧ isRedirect (handle_streamable_http_instance_call scope) = false := by
  have hrs : rstripSlash p = p := rstripSlash_eq_self p hnoslash
  refine ⟨?_, ?_, rfl, rfl⟩
  · intro hmcp
    have hnd := normalize_scope_dynamic_pos scope p hty hp
      ⟨hne, by rw [hrs]; exact hmcp, hnoslash⟩
    rw [hnd]
    refine ⟨rfl, ?_⟩
    intro rp hrp hrpne
    constructor
    · show (match scope.raw_path with
        | some rp => if rp ≠ "" then some (normalize_raw_path rp) else some rp
        | none => none) = _
      rw [hrp]
      simp only [if_pos hrpne]
      rw [(normalize_raw_path_spec rp).1]
    · exact (normalize_raw_path_spec rp).2
  · intro hpeq
    subst hpeq
    have hns := normalize_scope_static_pos scope "/mcp" hty hp
      ⟨hne, hrs, hnoslash⟩
    rw [hns]
    refine ⟨rfl, ?_⟩
    intro rp hrp hrpne
    show (match scope.raw_path with
      | some rp => if rp ≠ "" then some (normalize_raw_path rp) else some rp
      | none => none) = _
    rw [hrp]
    simp only [if_pos hrpne]
    rw [(normalize_raw_path_spec rp).1]

/-- Witness for the amended C1 at concrete requests: a dynamic request for
`/servers/x/mcp?a=1` and a static request for `/mcp?x=1`. -/
theorem mcp_path_normalisation_witness :
    (normalize_scope_dynamic scopeW).path = some ("/servers/x/mcp" ++ "/")
    ∧ (normalize_scope_dynamic scopeW).raw_path
        = some (rstripSlash (rawPathPart "/servers/x/mcp?a=1") ++ "/"
            ++ rawQuerySuffix "/servers/x/mcp?a=1")
    ∧ (normalize_scope_static scopeW2).path = some ("/mcp" ++ "/") := by
  have h1 := mcp_path_normalisation scopeW "/servers/x/mcp" rfl rfl
    (by decide) (by decide)
  have h2 := mcp_path_normalisation scopeW2 "/mcp" rfl rfl
    (by decide) (by decide)
  exact ⟨(h1.1 (by decide)).1,
    ((h1.1 (by decide)).2 "/servers/x/mcp?a=1" rfl (by decide)).1,
    (h2.2.1 rfl).1⟩

/-! ## Claim C10: normalisation is frame-preserving -/

/-- Claim C10: path normalisation never mutates the caller's scope beyond
`path`/`raw_path`: both handlers return a scope agreeing with the original
on `type` and on every other entry; and when the scope is not an HTTP
scope, the path already ends in `/`, or the path does not match the
handler's predicate, the original scope is passed on unchanged. -/
theorem normalisation_frame (scope : Scope) :
    (normalize_scope_static scope).typ = scope.typ
    ∧ (normalize_scope_static scope).other = scope.other
    ∧ (normalize_scope_dynamic scope).typ = scope.typ
    ∧ (normalize_scope_dynamic scope).other = scope.other
    ∧ (scope.typ ≠ "http" →
        normalize_scope_static scope = scope
        ∧ normalize_scope_dynamic scope = scope)
    ∧ (strEndsWith (scope.path.getD "") "/" = true →
        normalize_scope_static scope = scope
        ∧ normalize_scope_dynamic scope = scope)
    ∧ (rstripSlash (scope.path.getD "") ≠ "/mcp" →
        normalize_scope_static scope = scope)
    ∧ (strEndsWith (rstripSlash (scope.path.getD "")) "/mcp" = false →
        normalize_scope_dynamic scope = scope) := by
  have hsf : (normalize_scope_static scope).typ = scope.typ
      ∧ (normalize_scope_static scope).other = scope.other := by
    unfold normalize_scope_static
    by_cases h1 : scope.typ = "http"
    · rw [if_pos h1]
      simp only
      by_cases h2 : scope.path.getD "" ≠ ""
          ∧ rstripSlash (scope.path.getD "") = "/mcp"
          ∧ strEndsWith (scope.path.getD "") "/" = false
      · rw [if_pos h2]; exact ⟨rfl, rfl⟩
      · rw [if_neg h2]; exact ⟨rfl, rfl⟩
    · rw [if_neg h1]; exact ⟨rfl, rfl⟩
  have hdf : (normalize_scope_dynamic scope).typ = scope.typ
      ∧ (normalize_scope_dynamic scope).other = scope.other := by
    unfold normalize_scope_dynamic
    by_cases h1 : scope.typ = "http"
    · rw [if_pos h1]
      simp only
      by_cases h2 : scope.path.getD "" ≠ ""
          ∧ strEndsWith (rstripSlash (scope.path.getD "")) "/mcp" = true
          ∧ strEndsWith (scope.path.getD "") "/" = false
      · rw [if_pos h2]; exact ⟨rfl, rfl⟩
      · rw [if_neg h2]; exact ⟨rfl, rfl⟩
    · rw [if_neg h1]; exact ⟨rfl, rfl⟩
  refine ⟨hsf.1, hsf.2, hdf.1, hdf.2, ?_, ?_, ?_, ?_⟩
  · intro h
    exact ⟨normalize_scope_static_neg scope (Or.inl h),
      normalize_scope_dynamic_neg scope (Or.inl h)⟩
  · intro h
    refine ⟨normalize_scope_static_neg scope (Or.inr fun hc => ?_),
      normalize_scope_dynamic_neg scope (Or.inr fun hc => ?_)⟩
    · rw [hc.2.2] at h; cases h
    · rw [hc.2.2] at h; cases h
  · intro h
    exact normalize_scope_static_neg scope (Or.inr fun hc => h hc.2.1)
  · intro h
    apply normalize_scope_dynamic_neg scope (Or.inr fun hc => ?_)
    rw [hc.2.1] at h; cases h

/-- Witness for C10: a non-HTTP (websocket) scope passes through both
handlers unchanged. -/
theorem normalisation_frame_witness :
    (normalize_scope_static scopeW3).typ = scopeW3.typ
    ∧ normalize_scope_static scopeW3 = scopeW3 :=
  ⟨(normalisation_frame scopeW3).1,
   ((normalisation_frame scopeW3).2.2.2.2.1 (by decide)).1⟩

/-! ## Lemmas: event counting -/

theorem countL_append {α : Type} [DecidableEq α] (a : α) (l m : List α) :
    countL a (l ++ m) = countL a l + countL a m := by
  induction l with
  | nil => simp [countL]
  | cons x t ih => simp [countL, ih]; omega

theorem countL_take_zero {α : Type} [DecidableEq α] (a : α) (l : List α)
    (h : countL a l = 0) : ∀ n, countL a (l.take n) = 0 := by
  induction l with
  | nil => intro n; simp [countL]
  | cons x t ih =>
    intro n
    cases n with
    | zero => simp [countL]
    | succ m =>
      by_cases hx : x = a
      · simp [countL, hx] at h
      · simp only [countL, List.take_succ_cons, if_neg hx] at h ⊢
        simp at h ⊢
        exact ih h m

theorem countL_eq_zero_of_not_mem {α : Type} [DecidableEq α] (a : α) (l : List α)
    (h : a ∉ l) : countL a l = 0 := by
  induction l with
  | nil => rfl
  | cons x t ih =>
    simp only [List.mem_cons] at h
    push_neg at h
    have hx : ¬x = a := fun he => h.1 he.symm
    simp [countL, hx, ih h.2]

/-! ## Claim C2: activity timestamp updated before session I/O -/

/-- Claim C2: every transport-level handler (static SSE, static
Streamable-HTTP, dynamic SSE, dynamic Streamable-HTTP) touches
`GlobalStatus.api_last_activity` before invoking `ProxyAdapter.run` or
`HTTPSessionManager.handle_request`; hence — timestamps being strictly
increasing — the value observed after the request resolves is strictly
newer than its value at request start. -/
theorem activity_touch_before_session (b : String) (s : GStatus)
    (h : s.api_last_activity < s.clock) :
    touchPrecedesSession handle_sse_instance_events = true
    ∧ touchPrecedesSession handle_streamable_http_instance_events = true
    ∧ touchPrecedesSession (handle_dynamic_sse_events b none) = true
    ∧ touchPrecedesSession (handle_dynamic_mcp_events b none) = true
    ∧ s.api_last_activity
        < (execTrace s handle_sse_instance_events).api_last_activity
    ∧ s.api_last_activity
        < (execTrace s handle_streamable_http_instance_events).api_last_activity
    ∧ s.api_last_activity
        < (execTrace s (handle_dynamic_sse_events b none)).api_last_activity
    ∧ s.api_last_activity
        < (execTrace s (handle_dynamic_mcp_events b none)).api_last_activity := by
  refine ⟨rfl, rfl, rfl, rfl, ?_, ?_, ?_, ?_⟩ <;>
    · simp [execTrace, execEv, handle_sse_instance_events,
        handle_streamable_http_instance_events, handle_dynamic_sse_events,
        handle_dynamic_mcp_events, scoped_events]
      omega

/-- Witness for C2 with the clock at 1 and the last recorded activity at 0. -/
theorem activity_touch_before_session_witness :
    (GStatus.mk 1 0).api_last_activity < (GStatus.mk 1 0).clock
    ∧ (GStatus.mk 1 0).api_last_activity
        < (execTrace (GStatus.mk 1 0) handle_sse_instance_events).api_last_activity :=
  ⟨by decide,
   (activity_touch_before_session "x" (GStatus.mk 1 0) (by decide)).2.2.2.2.1⟩

/-! ## Claim C4: dynamic children are terminated on every exit path -/

/-- Claim C4: for every dynamic request (SSE or Streamable-HTTP) and every
exit path — normal completion (`abortAt = none`) or abort at any
suspension point inside the request scope (`abortAt = some n`) — exactly
one child is spawned and exactly one is terminated, so no child spawned by
the request remains alive after the request completes. -/
theorem dynamic_child_terminated (b : String) (abortAt : Option Nat) :
    countL (Ev.spawnChild b) (handle_dynamic_sse_events b abortAt) = 1
    ∧ countL (Ev.terminateChild b) (handle_dynamic_sse_events b abortAt) = 1
    ∧ countL (Ev.spawnChild b) (handle_dynamic_mcp_events b abortAt) = 1
    ∧ countL (Ev.terminateChild b) (handle_dynamic_mcp_events b abortAt) = 1 := by
  cases abortAt with
  | none =>
    refine ⟨?_, ?_, ?_, ?_⟩ <;>
      simp [handle_dynamic_sse_events, handle_dynamic_mcp_events, scoped_events,
        countL_append, countL]
  | some n =>
    have h1 : countL (Ev.spawnChild b)
        ([Ev.enterSse, Ev.runSession, Ev.exitSse].take n) = 0 :=
      countL_take_zero _ _ (by simp [countL]) n
    have h2 : countL (Ev.terminateChild b)
        ([Ev.enterSse, Ev.runSession, Ev.exitSse].take n) = 0 :=
      countL_take_zero _ _ (by simp [countL]) n
    have h3 : countL (Ev.spawnChild b) ([Ev.runSession].take n) = 0 :=
      countL_take_zero _ _ (by simp [countL]) n
    have h4 : countL (Ev.terminateChild b) ([Ev.runSession].take n) = 0 :=
      countL_take_zero _ _ (by simp [countL]) n
    refine ⟨?_, ?_, ?_, ?_⟩ <;>
      simp [handle_dynamic_sse_events, handle_dynamic_mcp_events, scoped_events,
        countL_append, countL, h1, h2, h3, h4]

/-! ## Lemmas: the orchestrator's named-server loop -/

theorem run_mcp_server_some (settings : MCPServerSettings)
    (d : Option StdioServerParameters)
    (named : List (String × StdioServerParameters))
    (hm : List (String × List (String × String))) (app : AppModel)
    (h : run_mcp_server settings d named hm = some app) :
    app = { routes := (named.foldl (setup_named_server hm) (run_base d)).1,
            serverInstances := (named.foldl (setup_named_server hm) (run_base d)).2.1,
            startupSpawns := (named.foldl (setup_named_server hm) (run_base d)).2.2,
            redirectSlashes := false } := by
  simp only [run_mcp_server] at h
  split at h
  · exact Option.noConfusion h
  · exact (Option.some.inj h).symm

theorem foldl_setup_routes_mono (hm : List (String × List (String × String))) :
    ∀ (l : List (String × StdioServerParameters))
      (acc : List RouteEntry × List (String × String) × List String)
      (r : RouteEntry),
      r ∈ acc.1 → r ∈ (l.foldl (setup_named_server hm) acc).1 := by
  intro l
  induction l with
  | nil => intro acc r hr; exact hr
  | cons p l ih =>
    intro acc r hr
    rw [List.foldl_cons]
    apply ih
    unfold setup_named_server
    by_cases hd : isDynamicServer hm p.1 = true
    · rw [if_pos hd]; exact List.mem_append_left _ hr
    · rw [if_neg hd]; exact List.mem_append_left _ hr

theorem foldl_setup_routes_mem (hm : List (String × List (String × String))) :
    ∀ (l : List (String × StdioServerParameters))
      (acc : List RouteEntry × List (String × String) × List String)
      (name : String) (params : StdioServerParameters),
      (name, params) ∈ l →
      (if isDynamicServer hm name
        then RouteEntry.mountRoutes ("/servers/" ++ name)
              create_dynamic_server_routes_model
        else RouteEntry.mountRoutes ("/servers/" ++ name)
              create_single_instance_routes_model)
        ∈ (l.foldl (setup_named_server hm) acc).1 := by
  intro l
  induction l with
  | nil => intro acc n p h; simp at h
  | cons q l ih =>
    intro acc n p h
    rw [List.foldl_cons]
    rcases List.mem_cons.mp h with heq | hmem
    · obtain ⟨qn, qp⟩ := q
      injection heq with h1 h2
      subst h1
      apply foldl_setup_routes_mono
      by_cases hd : isDynamicServer hm n = true
      · simp [setup_named_server, hd]
      · simp [setup_named_server, hd]
    · exact ih (setup_named_server hm acc q) n p hmem

theorem foldl_setup_inst_skip (hm : List (String × List (String × String))) :
    ∀ (l : List (String × StdioServerParameters))
      (acc : List RouteEntry × List (String × String) × List String)
      (k : String), k ∉ l.map Prod.fst →
      pget (l.foldl (setup_named_server hm) acc).2.1 k = pget acc.2.1 k := by
  intro l
  induction l with
  | nil => intro acc k _; rfl
  | cons q l ih =>
    intro acc k h
    simp only [List.map_cons, List.mem_cons] at h
    push_neg at h
    rw [List.foldl_cons, ih _ k h.2]
    unfold setup_named_server
    by_cases hd : isDynamicServer hm q.1 = true
    · rw [if_pos hd]
      exact pget_pset_other _ _ _ _ fun he => h.1 he.symm
    · rw [if_neg hd]
      exact pget_pset_other _ _ _ _ fun he => h.1 he.symm

theorem foldl_setup_inst_mem (hm : List (String × List (String × String))) :
    ∀ (l : List (String × StdioServerParameters))
      (acc : List RouteEntry × List (String × String) × List String)
      (name : String) (params : StdioServerParameters),
      (name, params) ∈ l → (l.map Prod.fst).Nodup →
      pget (l.foldl (setup_named_server hm) acc).2.1 name
        = some (if isDynamicServer hm name then "dynamic" else "static") := by
  intro l
  induction l with
  | nil => intro acc n p h; simp at h
  | cons q l ih =>
    intro acc n p h hnd
    simp only [List.map_cons, List.nodup_cons] at hnd
    rw [List.foldl_cons]
    rcases List.mem_cons.mp h with heq | hmem
    · obtain ⟨qn, qp⟩ := q
      injection heq with h1 h2
      subst h1
      rw [foldl_setup_inst_skip hm l _ n hnd.1]
      unfold setup_named_server
      by_cases hd : isDynamicServer hm n = true
      · rw [if_pos hd]
        show pget (pset acc.2.1 n "dynamic") n = _
        rw [pget_pset_self, if_pos hd]
      · rw [if_neg hd]
        show pget (pset acc.2.1 n "static") n = _
        rw [pget_pset_self, if_neg hd]
    · exact ih (setup_named_server hm acc q) n p hmem hnd.2

theorem foldl_setup_spawns (hm : List (String × List (String × String))) :
    ∀ (l : List (String × StdioServerParameters))
      (acc : List RouteEntry × List (String × String) × List String),
      (l.foldl (setup_named_server hm) acc).2.2
        = acc.2.2 ++ staticNames hm l := by
  intro l
  induction l with
  | nil => intro acc; simp [staticNames]
  | cons q l ih =>
    intro acc
    rw [List.foldl_cons, ih]
    by_cases hd : isDynamicServer hm q.1 = true
    · have hstep : (setup_named_server hm acc q).2.2 = acc.2.2 := by
        unfold setup_named_server
        rw [if_pos hd]
      have hfil : staticNames hm (q :: l) = staticNames hm l := by
        simp [staticNames, List.filter_cons, hd]
      rw [hstep, hfil]
    · have hd' : isDynamicServer hm q.1 = false := by simpa using hd
      have hstep : (setup_named_server hm acc q).2.2 = acc.2.2 ++ [q.1] := by
        unfold setup_named_server
        rw [if_neg hd]
      have hfil : staticNames hm (q :: l) = q.1 :: staticNames hm l := by
        simp [staticNames, List.filter_cons, hd']
      rw [hstep, hfil]
      simp

theorem mem_staticNames_isStatic (hm : List (String × List (String × String)))
    (l : List (String × StdioServerParameters)) (name : String)
    (h : name ∈ staticNames hm l) : isDynamicServer hm name = false := by
  unfold staticNames at h
  obtain ⟨q, hq, hq1⟩ := List.mem_map.mp h
  have hf := List.mem_filter.mp hq
  rw [← hq1]
  simpa using hf.2

theorem mem_keys_of_mem_staticNames (hm : List (String × List (String × String)))
    (l : List (String × StdioServerParameters)) (name : String)
    (h : name ∈ staticNames hm l) : name ∈ l.map Prod.fst := by
  unfold staticNames at h
  obtain ⟨q, hq, hq1⟩ := List.mem_map.mp h
  exact hq1 ▸ List.mem_map_of_mem Prod.fst (List.mem_filter.mp hq).1

theorem staticNames_count_one (hm : List (String × List (String × String))) :
    ∀ (l : List (String × StdioServerParameters)) (b : String)
      (params : StdioServerParameters),
      (b, params) ∈ l → isDynamicServer hm b = false →
      (l.map Prod.fst).Nodup → countL b (staticNames hm l) = 1 := by
  intro l
  induction l with
  | nil => intro b p h; simp at h
  | cons q l ih =>
    intro b p hmem hsta hnd
    simp only [List.map_cons, List.nodup_cons] at hnd
    rcases List.mem_cons.mp hmem with heq | hmem2
    · obtain ⟨qn, qp⟩ := q
      injection heq with h1 h2
      subst h1
      have hq1 : staticNames hm ((b, qp) :: l) = b :: staticNames hm l := by
        simp [staticNames, List.filter_cons, hsta]
      rw [hq1]
      have hz : countL b (staticNames hm l) = 0 :=
        countL_eq_zero_of_not_mem _ _
          fun hin => hnd.1 (mem_keys_of_mem_staticNames hm l b hin)
      simp [countL, hz]
    · have hqb : ¬q.1 = b :=
        fun he => hnd.1 (he ▸ List.mem_map_of_mem Prod.fst hmem2)
      by_cases hd : isDynamicServer hm q.1 = true
      · have hq1 : staticNames hm (q :: l) = staticNames hm l := by
          simp [staticNames, List.filter_cons, hd]
        rw [hq1]
        exact ih b p hmem2 hsta hnd.2
      · have hd' : isDynamicServer hm q.1 = false := by simpa using hd
        have hq1 : staticNames hm (q :: l) = q.1 :: staticNames hm l := by
          simp [staticNames, List.filter_cons, hd']
        rw [hq1]
        simp only [countL, if_neg hqb]
        rw [ih b p hmem2 hsta hnd.2]

/-! ## Claim C6: no backends configured -/

/-- Claim C6: when `run_mcp_server` is called with no default server and an
empty (or absent) named-server map, it reports a configuration error and
returns without starting the HTTP server. -/
theorem no_backends_config_error (settings : MCPServerSettings)
    (hm : List (String × List (String × String))) :
    run_mcp_server settings none [] hm = none := by
  simp [run_mcp_server]

/-! ## Claim C7: no trailing-slash redirect -/

/-- Claim C7: the proxy never emits an HTTP 3xx redirect for trailing-slash
normalisation: both streamable-HTTP handlers always delegate an in-band
rewritten scope (never respond themselves), and the application built by
the orchestrator has automatic trailing-slash redirects disabled. -/
theorem no_trailing_slash_redirect (settings : MCPServerSettings)
    (d : Option StdioServerParameters)
    (named : List (String × StdioServerParameters))
    (hm : List (String × List (String × String))) (app : AppModel)
    (h : run_mcp_server settings d named hm = some app) :
    app.redirectSlashes = false
    ∧ (∀ scope : Scope,
        isRedirect (handle_streamable_http_instance_call scope) = false)
    ∧ (∀ scope : Scope, isRedirect (handle_dynamic_mcp_call scope) = false) := by
  refine ⟨?_, fun _ => rfl, fun _ => rfl⟩
  rw [run_mcp_server_some settings d named hm app h]

/-- Witness for C7 with a concrete default-only configuration. -/
theorem no_trailing_slash_redirect_witness : appW7.redirectSlashes = false :=
  (no_trailing_slash_redirect settingsW (some paramsW) [] [] appW7 (by decide)).1

/-! ## Claim C8: server_instances population -/

/-- Claim C8: during orchestrator setup `GlobalStatus.server_instances`
maps the default backend (when configured) to `"configured"`, and each
named backend to `"dynamic"` exactly when its name has a non-empty header
mapping (in which case no child is spawned at startup) and to `"static"`
otherwise.  The named-server names are unique and distinct from the
`"default"` sentinel, per the data model. -/
theorem server_instances_population (settings : MCPServerSettings)
    (d : Option StdioServerParameters)
    (named : List (String × StdioServerParameters))
    (hm : List (String × List (String × String))) (app : AppModel)
    (h : run_mcp_server settings d named hm = some app)
    (hnd : (named.map Prod.fst).Nodup)
    (hdef : "default" ∉ named.map Prod.fst) :
    pget app.serverInstances "default"
        = (match d with | some _ => some "configured" | none => none)
    ∧ ∀ name params, (name, params) ∈ named →
        pget app.serverInstances name
          = some (if isDynamicServer hm name then "dynamic" else "static")
        ∧ (isDynamicServer hm name = true → name ∉ app.startupSpawns) := by
  have happ := run_mcp_server_some settings d named hm app h
  subst happ
  constructor
  · show pget (named.foldl (setup_named_server hm) (run_base d)).2.1 "default" = _
    rw [foldl_setup_inst_skip hm named (run_base d) "default" hdef]
    cases d with
    | some q => simp [run_base, pget]
    | none => rfl
  · intro name params hmem
    constructor
    · exact foldl_setup_inst_mem hm named (run_base d) name params hmem hnd
    · intro hdyn
      show name ∉ (named.foldl (setup_named_server hm) (run_base d)).2.2
      rw [foldl_setup_spawns hm named (run_base d)]
      intro hin
      have hname : name ≠ "default" :=
        fun he => hdef (he ▸ List.mem_map_of_mem Prod.fst hmem)
      rcases List.mem_append.mp hin with hin | hin
      · cases d with
        | some q =>
          simp only [run_base, List.mem_singleton] at hin
          exact hname hin
        | none => simp [run_base] at hin
      · rw [mem_staticNames_isStatic hm named name hin] at hdyn
        cases hdyn

/-- Witness for C8: named backend `b` with a non-empty header mapping is
marked `"dynamic"` and spawns nothing at startup. -/
theorem server_instances_population_witness :
    pget appW8.serverInstances "b" = some "dynamic"
    ∧ "b" ∉ appW8.startupSpawns := by
  have h := server_instances_population settingsW none
    [("a", paramsW), ("b", paramsW)] hmW appW8 (by decide) (by decide) (by decide)
  have h2 := h.2 "b" paramsW (by decide)
  constructor
  · rw [h2.1]
    simp [show isDynamicServer hmW "b" = true from by decide]
  · exact h2.2 (by decide)

/-! ## Claim C5: static backends spawn exactly one child -/

/-- Claim C5: for every static backend (default or named), exactly one
child process is spawned over the application lifetime, at startup: the
static request handlers never spawn, so the startup spawn plus the spawns
of any number of static-handler requests total exactly one. -/
theorem static_backend_single_spawn (settings : MCPServerSettings)
    (d : Option StdioServerParameters)
    (named : List (String × StdioServerParameters))
    (hm : List (String × List (String × String))) (app : AppModel)
    (b : String) (ts : List (List Ev))
    (h : run_mcp_server settings d named hm = some app)
    (hnd : (named.map Prod.fst).Nodup)
    (hdef : "default" ∉ named.map Prod.fst)
    (hb : (b = "default" ∧ d.isSome = true)
        ∨ ∃ params, (b, params) ∈ named ∧ isDynamicServer hm b = false)
    (hts : ∀ t ∈ ts, t = handle_sse_instance_events
        ∨ t = handle_streamable_http_instance_events) :
    countL b app.startupSpawns
      + (ts.map (fun t => countL (Ev.spawnChild b) t)).sum = 1 := by
  have happ := run_mcp_server_some settings d named hm app h
  subst happ
  have hreq : (ts.map (fun t => countL (Ev.spawnChild b) t)).sum = 0 := by
    apply List.sum_eq_zero
    intro x hx
    obtain ⟨t, ht, rfl⟩ := List.mem_map.mp hx
    rcases hts t ht with rfl | rfl
    · simp [handle_sse_instance_events, countL]
    · simp [handle_streamable_http_instance_events, countL]
  rw [hreq, Nat.add_zero]
  show countL b (named.foldl (setup_named_server hm) (run_base d)).2.2 = 1
  rw [foldl_setup_spawns hm named (run_base d), countL_append]
  rcases hb with ⟨rfl, hsome⟩ | ⟨params, hmem, hsta⟩
  · have h1 : countL "default" (run_base d).2.2 = 1 := by
      cases d with
      | some q => simp [run_base, countL]
      | none => simp at hsome
    have h2 : countL "default" (staticNames hm named) = 0 :=
      countL_eq_zero_of_not_mem _ _
        fun hin => hdef (mem_keys_of_mem_staticNames hm named "default" hin)
    rw [h1, h2]
  · have hbne : ¬("default" : String) = b := fun he =>
      hdef (he ▸ List.mem_map_of_mem Prod.fst hmem)
    have h1 : countL b (run_base d).2.2 = 0 := by
      cases d with
      | some q => simp [run_base, countL, hbne]
      | none => rfl
    have h2 : countL b (staticNames hm named) = 1 :=
      staticNames_count_one hm named b params hmem hsta hnd
    rw [h1, h2]

/-- Witness for C5: a single static named backend `a` serving one SSE
request still counts exactly one spawned child. -/
theorem static_backend_single_spawn_witness :
    countL "a" appW5.startupSpawns
      + ([handle_sse_instance_events].map
          (fun t => countL (Ev.spawnChild "a") t)).sum = 1 := by
  refine static_backend_single_spawn settingsW none [("a", paramsW)] [] appW5 "a"
    [handle_sse_instance_events] (by decide) (by decide) (by decide)
    (Or.inr ⟨paramsW, by decide, by decide⟩) ?_
  intro t ht
  exact Or.inl (List.mem_singleton.mp ht)

/-! ## Claim C9: route sets -/

/-- Claim C9: a static backend's routes are exactly
{`Route /sse`, `Route /mcp` with all HTTP methods, `Mount /mcp`,
`Mount /messages/`}; a dynamic backend's are the same minus the
`/messages/` mount; named backends are mounted under `/servers/{name}`
while the default backend's routes and `/status` sit at root. -/
theorem route_sets (settings : MCPServerSettings)
    (d : Option StdioServerParameters)
    (named : List (String × StdioServerParameters))
    (hm : List (String × List (String × String))) (app : AppModel)
    (h : run_mcp_server settings d named hm = some app) :
    ((create_single_instance_routes_model.map leafShape :
        Multiset (String × String × Option (List String)))
      = {("Route", "/sse", none), ("Route", "/mcp", some HTTP_METHODS),
         ("Mount", "/mcp", none), ("Mount", "/messages/", none)})
    ∧ ((create_dynamic_server_routes_model.map leafShape :
        Multiset (String × String × Option (List String)))
      = (create_single_instance_routes_model.map leafShape :
          Multiset (String × String × Option (List String))).erase
            ("Mount", "/messages/", none))
    ∧ status_route ∈ app.routes
    ∧ (d.isSome = true →
        ∀ r ∈ create_single_instance_routes_model, RouteEntry.leaf r ∈ app.routes)
    ∧ ∀ name params, (name, params) ∈ named →
        (if isDynamicServer hm name
          then RouteEntry.mountRoutes ("/servers/" ++ name)
                create_dynamic_server_routes_model
          else RouteEntry.mountRoutes ("/servers/" ++ name)
                create_single_instance_routes_model)
          ∈ app.routes := by
  have happ := run_mcp_server_some settings d named hm app h
  subst happ
  refine ⟨by decide, by decide, ?_, ?_, ?_⟩
  · apply foldl_setup_routes_mono
    cases d with
    | some q => exact List.mem_append_left _ (List.mem_singleton.mpr rfl)
    | none => simp [run_base]
  · intro hsome r hr
    apply foldl_setup_routes_mono
    cases d with
    | some q =>
      exact List.mem_append_right _ (List.mem_map_of_mem RouteEntry.leaf hr)
    | none => simp at hsome
  · intro name params hmem
    exact foldl_setup_routes_mem hm named (run_base d) name params hmem

/-- Witness for C9: concrete app with a static backend `a` and a dynamic
backend `b`. -/
theorem route_sets_witness :
    status_route ∈ appW8.routes
    ∧ RouteEntry.mountRoutes ("/servers/" ++ "b")
        create_dynamic_server_routes_model ∈ appW8.routes := by
  have h := route_sets settingsW none [("a", paramsW), ("b", paramsW)] hmW appW8
    (by decide)
  refine ⟨h.2.2.1, ?_⟩
  have h2 := h.2.2.2.2 "b" paramsW (by decide)
  simpa [show isDynamicServer hmW "b" = true from by decide] using h2
